import Mathlib

/-!
Shallow embedding of `convert_coco.py` from the Sana utility repository.

The script converts COCO caption Parquet shards into WebDataset TAR shards.
External collaborators (PIL image codec, pyarrow table reader, the
`wds.ShardWriter` archive writer, `glob`) are modelled as explicit parameters
or, where the spec documents their contract, as definitions marked
`Modelled from the spec`.  Byte strings are modelled as `List Nat`.
-/

set_option autoImplicit false

namespace ConvertCoco

/-- Raw byte payloads (Python `bytes`). -/
abbrev Bytes := List Nat

/-- Result of a successful PIL decode of a byte payload: `Image.open` followed
by `verify()` and a re-open.  `format` is the string PIL reports (for example
"JPEG", "PNG"), `none` when PIL reports no format; `mode` is the color mode
string ("RGB", "RGBA", "L", ...); `width`, `height` are the pixel dimensions
from `img.size`. -/
structure DecodedImage where
  format : Option String
  mode : String
  width : Nat
  height : Nat
deriving DecidableEq

/-- The PIL image codec, an external collaborator.  `decode` models
`Image.open` + `img.verify()` + re-open: `none` means `UnidentifiedImageError`
or any other exception raised while decoding or verifying.  `encodeRGBJpeg`
models `img.convert('RGB')` followed by `img.save(buffer, format='JPEG')`:
`none` means an exception raised during conversion or re-encoding. -/
structure PILEnv where
  decode : Bytes → Option DecodedImage
  encodeRGBJpeg : DecodedImage → Option Bytes

/-- Python `str.lower()` on the format strings PIL reports (ASCII), mapping
each character through `Char.toLower`. -/
def pyLower (s : String) : String :=
  String.mk (s.data.map Char.toLower)

/-- The format tag computed by
`img.format.lower() if img.format else 'jpeg'`: Python truthiness makes both
`None` and the empty string fall back to "jpeg". -/
def formatTag (fmt : Option String) : String :=
  match fmt with
  | none => "jpeg"
  | some s => if s = "" then "jpeg" else pyLower s

/-- The supported format list of line 29 of `convert_coco.py`. -/
def supportedFormats : List String := ["jpeg", "png", "webp"]

/-- Embedding of `get_image_bytes_validate_and_dims` (lines 13-58).
Returns `some (validated_bytes, img_format, width, height)` or `none` when the
image is rejected (decode failure or exception). -/
def get_image_bytes_validate_and_dims (env : PILEnv) (img_bytes : Bytes)
    (_filename_for_error : String) : Option (Bytes × String × Nat × Nat) :=
  match env.decode img_bytes with
  | none => none
  | some img =>
    let fmt0 := formatTag img.format
    let img_format := if fmt0 ∈ supportedFormats then fmt0 else "jpeg"
    if img_format = "jpeg" ∧ img.mode ≠ "RGB" then
      match env.encodeRGBJpeg img with
      | none => none
      | some validated_bytes =>
          some (validated_bytes, img_format, img.width, img.height)
    else if img_format = "png" ∧ img.mode = "RGBA" then
      some (img_bytes, img_format, img.width, img.height)
    else
      some (img_bytes, img_format, img.width, img.height)

/-- The shape of the `image` column value of a row (line 99): raw bytes, a
dict that has a `bytes` key, a dict without one, or any other Python value. -/
inductive ImageField where
  | raw (b : Bytes)
  | dictWithBytes (b : Bytes)
  | dictNoBytes
  | other
deriving DecidableEq

/-- One record of a Parquet table: columns `filename`, `caption`, `image`. -/
structure Row where
  filename : String
  caption : String
  image : ImageField
deriving DecidableEq

/-- Embedding of lines 102-108: a dict exposing a `bytes` key yields that
value, raw bytes yield themselves, anything else is rejected (`none`). -/
def extractImageBytes : ImageField → Option Bytes
  | .dictWithBytes b => some b
  | .raw b => some b
  | .dictNoBytes => none
  | .other => none

/-- Whether the aggregation loop prints the line-107 warning for a row. -/
def rowWarned (r : Row) : Bool :=
  (extractImageBytes r.image).isNone

/-- One value of the `image_data` defaultdict (line 78). -/
structure Entry where
  prompt_text : String
  image_bytes : Option Bytes
deriving DecidableEq

/-- The `image_data` mapping, in insertion order (Python dicts preserve it). -/
abbrev AggMap := List (String × Entry)

/-- Lookup with the defaultdict default `{"prompt_text": "", "image_bytes": None}`. -/
def getEntry : AggMap → String → Entry
  | [], _ => ⟨"", none⟩
  | (k, e) :: rest, fn => if k = fn then e else getEntry rest fn

/-- Store an entry under a key: replace in place when present, append when
absent (Python dict update/insert semantics). -/
def setEntry : AggMap → String → Entry → AggMap
  | [], fn, e => [(fn, e)]
  | (k, e0) :: rest, fn, e =>
      if k = fn then (fn, e) :: rest else (k, e0) :: setEntry rest fn e

/-- The per-filename update of lines 110-115, on an (caption, bytes) pair: if
no image bytes are stored yet, store the bytes and the caption; otherwise
replace the stored prompt only when the new caption is strictly longer. -/
def step1 (e : Entry) (p : String × Bytes) : Entry :=
  match e.image_bytes with
  | none => ⟨p.1, some p.2⟩
  | some ib =>
      if e.prompt_text.length < p.1.length then ⟨p.1, some ib⟩ else e

/-- Embedding of one iteration of the row loop (lines 96-115): extract the
image bytes (skipping the row when malformed), then update the entry for the
row's filename. -/
def processRow (m : AggMap) (r : Row) : AggMap :=
  match extractImageBytes r.image with
  | none => m
  | some b => setEntry m r.filename (step1 (getEntry m r.filename) (r.caption, b))

/-- An input Parquet file: either its rows, or a file whose read raises
(lines 117-119 skip the whole file and continue). -/
inductive ParquetFile where
  | ok (rows : List Row)
  | readError
deriving DecidableEq

/-- The rows a file contributes to the pass: none when reading it fails. -/
def ParquetFile.goodRows : ParquetFile → List Row
  | .ok rows => rows
  | .readError => []

/-- Embedding of the `try` body for one file (lines 87-119). -/
def processFile (m : AggMap) (f : ParquetFile) : AggMap :=
  f.goodRows.foldl processRow m

/-- Pass 1 (lines 80-119): fold every row of every readable file, in order,
into the aggregation mapping, starting from the empty defaultdict. -/
def aggregate (files : List ParquetFile) : AggMap :=
  files.foldl processFile []

/-- All rows the pass sees, in scan order. -/
def allRows (files : List ParquetFile) : List Row :=
  (files.map ParquetFile.goodRows).flatten

/-- The (caption, image bytes) pairs of the successfully extracted rows for
one filename, in scan order. -/
def pairsOf (rows : List Row) (fn : String) : List (String × Bytes) :=
  rows.filterMap fun r =>
    if r.filename = fn then
      (extractImageBytes r.image).map fun b => (r.caption, b)
    else none

/-- Same, over all files of a run. -/
def validPairsFor (files : List ParquetFile) (fn : String) :
    List (String × Bytes) :=
  pairsOf (allRows files) fn

/-- The captions seen (on successfully extracted rows) for one filename. -/
def captionsFor (files : List ParquetFile) (fn : String) : List String :=
  (validPairsFor files fn).map Prod.fst

/-- The caption-competition step: keep the challenger only when strictly
longer (`len(caption) > len(stored)`). -/
def pick (best c : String) : String :=
  if best.length < c.length then c else best

/-- Index of the last occurrence of a character in a character list. -/
def lastIdxOf (cs : List Char) (c : Char) : Option Nat :=
  match cs with
  | [] => none
  | c0 :: rest =>
    match lastIdxOf rest c with
    | some i => some (i + 1)
    | none => if c0 = c then some 0 else none

/-- Embedding of `os.path.splitext(p)[0]` (posixpath): split at the last dot
that lies after the last path separator, unless every character of the
basename before that dot is itself a dot (so ".bashrc" keeps its name). -/
def splitextStem (p : String) : String :=
  let cs := p.data
  match lastIdxOf cs '.' with
  | none => p
  | some d =>
    let start :=
      match lastIdxOf cs '/' with
      | none => 0
      | some s => s + 1
    if start ≤ d then
      if (List.range' start (d - start)).any (fun j => cs.getD j ' ' ≠ '.') then
        String.mk (cs.take d)
      else p
    else p

/-- One sample handed to `sink.write` (lines 137-149): the key is the
filename without extension, the image bytes sit under the field named by the
format tag, and the JSON metadata carries prompt, width and height. -/
structure Sample where
  key : String
  fmt : String
  bytes : Bytes
  prompt : String
  width : Nat
  height : Nat
deriving DecidableEq

/-- Embedding of one iteration of the writing loop (lines 122-150): skip the
entry when the image bytes are missing or the prompt is empty (Python
`if image_bytes is None or not prompt_text`), skip it when validation
rejects the bytes, otherwise build the sample. -/
def sampleOf (env : PILEnv) (fn : String) (e : Entry) : Option Sample :=
  match e.image_bytes with
  | none => none
  | some ib =>
    if e.prompt_text = "" then none
    else
      match get_image_bytes_validate_and_dims env ib fn with
      | none => none
      | some (vb, fmt, w, h) =>
          some ⟨splitextStem fn, fmt, vb, e.prompt_text, w, h⟩

/-- Pass 2 (lines 121-150): the sequence of samples written to the sink, in
mapping iteration order.  `total_images_processed` is its length. -/
def writePass (env : PILEnv) (m : AggMap) : List Sample :=
  m.filterMap fun p => sampleOf env p.1 p.2

/-- Modelled from the spec: the external `wds.ShardWriter` groups the written
samples, in arrival order, into shards of at most `maxcount` samples, never
splitting a sample, closing a shard when full or when the stream closes.
`convert_coco.py` passes `maxcount=samples_per_shard` (line 76). -/
def toShards {α : Type} (maxcount : Nat) (xs : List α) : List (List α) :=
  if _hN : maxcount = 0 then []
  else if _hxs : xs.length = 0 then []
  else xs.take maxcount :: toShards maxcount (xs.drop maxcount)
termination_by xs.length
decreasing_by
  simp only [List.length_drop]
  omega

/-- Python `"%06d" % n`: decimal digits zero-padded on the left to width 6. -/
def pad6 (n : Nat) : String :=
  let s := toString n
  if s.length < 6 then String.mk (List.replicate (6 - s.length) '0') ++ s else s

/-- The filename of shard `i`, from the pattern
`f"{output_prefix}-%06d.tar"` of line 73 (directory part omitted). -/
def shardName (pfx : String) (i : Nat) : String :=
  pfx ++ "-" ++ pad6 i ++ ".tar"

/-- Modelled from the spec: `wds.ShardWriter` numbers shards from 0,
incrementing by 1, substituting the number into the `%06d` pattern. -/
def shardNames {α : Type} (pfx : String) (shards : List (List α)) :
    List String :=
  (List.range shards.length).map (shardName pfx)

/-- Embedding of `convert_parquet_to_webdataset_with_dims` (lines 60-154):
aggregate all rows, validate and write the surviving samples, sharded.  The
result pairs each shard filename with its samples. -/
def convert (env : PILEnv) (parquet_files : List ParquetFile) (pfx : String)
    (samples_per_shard : Nat) : List (String × List Sample) :=
  let samples := writePass env (aggregate parquet_files)
  let shards := toShards samples_per_shard samples
  (shardNames pfx shards).zip shards

/-- Observable outcome of the `__main__` block. -/
structure RunOutcome where
  errorPrinted : Bool
  outputDirCreated : Bool
  shards : List (String × List Sample)
deriving DecidableEq

/-- Embedding of the `__main__` block (lines 157-176): `matchedFiles` is the
sorted glob result for `<input_dir>/<split>-*.parquet`.  When it is empty the
script prints the error and stops; otherwise it creates the output directory
(inside `convert`, line 72) and converts. -/
def runMain (env : PILEnv) (matchedFiles : List ParquetFile) (split : String)
    (samples_per_shard : Nat) : RunOutcome :=
  if matchedFiles.length = 0 then
    ⟨true, false, []⟩
  else
    ⟨false, true, convert env matchedFiles ("coco-" ++ split) samples_per_shard⟩

/-- The spec-side notion "first caption of maximum length in scan order":
`p` occurs in the list, everything strictly before that occurrence is
strictly shorter, and nothing in the list is longer. -/
def IsFirstLongest (l : List String) (p : String) : Prop :=
  ∃ pre post, l = pre ++ p :: post ∧
    (∀ x ∈ pre, x.length < p.length) ∧
    (∀ x ∈ l, x.length ≤ p.length)

/-- A codec under which every payload decodes as a 1x1 RGB JPEG. -/
def envAllJpegRGB : PILEnv :=
  ⟨fun _ => some ⟨some "JPEG", "RGB", 1, 1⟩, fun _ => none⟩

/-- A codec under which no payload decodes (every byte string is rejected). -/
def envRejectAll : PILEnv :=
  ⟨fun _ => none, fun _ => none⟩

/-- A codec under which the payload `[0]` decodes as a 4x5 RGB BMP; JPEG
re-encoding would produce the distinct bytes `[9, 9]`. -/
def envBmpRGB : PILEnv :=
  ⟨fun b => if b = [0] then some ⟨some "BMP", "RGB", 4, 5⟩ else none,
   fun _ => some [9, 9]⟩

/-- A codec under which the payload `[3]` decodes as a 2x2 grayscale BMP;
JPEG re-encoding produces the bytes `[7]`. -/
def envBmpGray : PILEnv :=
  ⟨fun b => if b = [3] then some ⟨some "BMP", "L", 2, 2⟩ else none,
   fun _ => some [7]⟩

/-- A codec under which the payload `[5]` decodes as a 3x4 RGBA PNG. -/
def envPngRGBA : PILEnv :=
  ⟨fun b => if b = [5] then some ⟨some "PNG", "RGBA", 3, 4⟩ else none,
   fun _ => some [8]⟩

/-- Concrete input: two rows for the same image, the second caption longer,
plus a malformed row and a row for a second image. -/
def wFiles : List ParquetFile :=
  [.ok [⟨"img.jpg", "short", .raw [1]⟩,
        ⟨"img.jpg", "a longer caption", .raw [2]⟩,
        ⟨"img.jpg", "tiny", .dictNoBytes⟩],
   .ok [⟨"other.jpg", "cap", .dictWithBytes [4]⟩]]

/-- Concrete input whose two filenames differ only in their extension. -/
def collideFiles : List ParquetFile :=
  [.ok [⟨"a.jpg", "cap", .raw [1]⟩, ⟨"a.png", "cap", .raw [2]⟩]]

/-- A concrete sample, used to instantiate sharding statements. -/
def sampleA : Sample :=
  ⟨"k", "jpeg", [0], "p", 1, 1⟩

theorem getEntry_setEntry_same (m : AggMap) (fn : String) (e : Entry) :
    getEntry (setEntry m fn e) fn = e := by
  induction m with
  | nil => simp [setEntry, getEntry]
  | cons p rest ih =>
      obtain ⟨k, e0⟩ := p
      by_cases h : k = fn <;> simp [setEntry, getEntry, h, ih]

theorem getEntry_setEntry_other (m : AggMap) (fn fn2 : String) (e : Entry)
    (h : fn ≠ fn2) : getEntry (setEntry m fn e) fn2 = getEntry m fn2 := by
  induction m with
  | nil => simp [setEntry, getEntry, h]
  | cons p rest ih =>
      obtain ⟨k, e0⟩ := p
      by_cases hk : k = fn
      · subst hk
        simp [setEntry, getEntry, h]
      · simp [setEntry, getEntry, hk, ih]

theorem pairsOf_nil (fn : String) : pairsOf [] fn = [] := rfl

theorem pairsOf_cons_none (r : Row) (rows : List Row) (fn : String)
    (hx : extractImageBytes r.image = none) :
    pairsOf (r :: rows) fn = pairsOf rows fn := by
  simp [pairsOf, List.filterMap_cons, hx]

theorem pairsOf_cons_some_eq (r : Row) (rows : List Row) (b : Bytes)
    (hx : extractImageBytes r.image = some b) :
    pairsOf (r :: rows) r.filename = (r.caption, b) :: pairsOf rows r.filename := by
  simp [pairsOf, List.filterMap_cons, hx]

theorem pairsOf_cons_ne (r : Row) (rows : List Row) (fn : String)
    (hf : r.filename ≠ fn) :
    pairsOf (r :: rows) fn = pairsOf rows fn := by
  simp [pairsOf, List.filterMap_cons, hf]

theorem getEntry_foldl_processRow (rows : List Row) (m : AggMap) (fn : String) :
    getEntry (rows.foldl processRow m) fn
      = (pairsOf rows fn).foldl step1 (getEntry m fn) := by
  induction rows generalizing m with
  | nil => simp [pairsOf]
  | cons r rows ih =>
      simp only [List.foldl_cons]
      rw [ih]
      rcases hx : extractImageBytes r.image with _ | b
      · rw [pairsOf_cons_none r rows fn hx]
        have hm : processRow m r = m := by simp [processRow, hx]
        rw [hm]
      · by_cases hf : r.filename = fn
        · subst hf
          rw [pairsOf_cons_some_eq r rows b hx]
          have hm : getEntry (processRow m r) r.filename
              = step1 (getEntry m r.filename) (r.caption, b) := by
            simp [processRow, hx, getEntry_setEntry_same]
          rw [hm, List.foldl_cons]
        · rw [pairsOf_cons_ne r rows fn hf]
          have hm : getEntry (processRow m r) fn = getEntry m fn := by
            simp [processRow, hx, getEntry_setEntry_other _ _ _ _ hf]
          rw [hm]

theorem foldl_processFile_eq (files : List ParquetFile) (m : AggMap) :
    files.foldl processFile m = (allRows files).foldl processRow m := by
  induction files generalizing m with
  | nil => simp [allRows]
  | cons f fs ih =>
      have ha : allRows (f :: fs) = f.goodRows ++ allRows fs := by
        simp [allRows]
      rw [List.foldl_cons, ih, ha, List.foldl_append, processFile]

theorem getEntry_aggregate (files : List ParquetFile) (fn : String) :
    getEntry (aggregate files) fn
      = (validPairsFor files fn).foldl step1 ⟨"", none⟩ := by
  rw [aggregate, foldl_processFile_eq, getEntry_foldl_processRow]
  rfl

theorem step1_image_bytes (e : Entry) (p : String × Bytes) (ib : Bytes)
    (h : e.image_bytes = some ib) : (step1 e p).image_bytes = some ib := by
  obtain ⟨pt, ibs⟩ := e
  simp only at h
  subst h
  show (if pt.length < p.1.length then (⟨p.1, some ib⟩ : Entry)
        else ⟨pt, some ib⟩).image_bytes = some ib
  split <;> rfl

theorem foldl_step1_image_bytes (ps : List (String × Bytes)) (ib : Bytes) :
    ∀ e : Entry, e.image_bytes = some ib →
      (ps.foldl step1 e).image_bytes = some ib := by
  induction ps with
  | nil => intro e h; exact h
  | cons p ps ih =>
      intro e h
      simp only [List.foldl_cons]
      exact ih (step1 e p) (step1_image_bytes e p ib h)

theorem foldl_step1_prompt (ps : List (String × Bytes)) (ib : Bytes) :
    ∀ e : Entry, e.image_bytes = some ib →
      (ps.foldl step1 e).prompt_text
        = (ps.map Prod.fst).foldl pick e.prompt_text := by
  induction ps with
  | nil => intro e _; rfl
  | cons p ps ih =>
      intro e h
      simp only [List.foldl_cons, List.map_cons]
      have hs : step1 e p
          = if e.prompt_text.length < p.1.length then ⟨p.1, some ib⟩ else e := by
        unfold step1
        rw [h]
      by_cases hc : e.prompt_text.length < p.1.length
      · rw [hs, if_pos hc, ih ⟨p.1, some ib⟩ rfl]
        simp [pick, hc]
      · rw [hs, if_neg hc, ih e h]
        simp [pick, hc]

theorem pick_first_longest (cs : List String) :
    ∀ c : String, IsFirstLongest (c :: cs) (cs.foldl pick c) := by
  induction cs with
  | nil =>
      intro c
      exact ⟨[], [], by simp, by simp, by simp⟩
  | cons c2 cs ih =>
      intro c
      simp only [List.foldl_cons]
      by_cases hlt : c.length < c2.length
      · have hp : pick c c2 = c2 := by simp [pick, hlt]
        rw [hp]
        obtain ⟨pre, post, heq, hpre, hall⟩ := ih c2
        have hble : c2.length ≤ (cs.foldl pick c2).length :=
          hall c2 (List.mem_cons_self c2 cs)
        refine ⟨c :: pre, post, ?_, ?_, ?_⟩
        · rw [List.cons_append, ← heq]
        · intro x hx
          rcases List.mem_cons.mp hx with hx | hx
          · subst hx; omega
          · exact hpre x hx
        · intro x hx
          rcases List.mem_cons.mp hx with hx | hx
          · subst hx; omega
          · exact hall x hx
      · have hle : c2.length ≤ c.length := Nat.le_of_not_lt hlt
        have hp : pick c c2 = c := by simp [pick, hlt]
        rw [hp]
        obtain ⟨pre, post, heq, hpre, hall⟩ := ih c
        cases pre with
        | nil =>
            rw [List.nil_append] at heq
            injection heq with hb hpost
            refine ⟨[], c2 :: cs, ?_, ?_, ?_⟩
            · rw [List.nil_append, ← hb]
            · intro x hx
              simp at hx
            · intro x hx
              rcases List.mem_cons.mp hx with hx | hx
              · subst hx
                exact hall _ (List.mem_cons_self _ _)
              · rcases List.mem_cons.mp hx with hx | hx
                · subst hx
                  rw [← hb]
                  exact hle
                · exact hall x (List.mem_cons.mpr (Or.inr hx))
        | cons p pre2 =>
            rw [List.cons_append] at heq
            injection heq with hpc1 hpc2
            have hcmem : c ∈ p :: pre2 := by
              rw [hpc1]
              exact List.mem_cons_self p pre2
            have hclt : c.length < (cs.foldl pick c).length := hpre c hcmem
            refine ⟨c :: c2 :: pre2, post, ?_, ?_, ?_⟩
            · simp only [List.cons_append]
              rw [← hpc2]
            · intro x hx
              rcases List.mem_cons.mp hx with hx | hx
              · subst hx; exact hclt
              · rcases List.mem_cons.mp hx with hx | hx
                · subst hx; omega
                · exact hpre x (List.mem_cons.mpr (Or.inr hx))
            · intro x hx
              rcases List.mem_cons.mp hx with hx | hx
              · subst hx
                exact hall x (List.mem_cons_self _ _)
              · rcases List.mem_cons.mp hx with hx | hx
                · subst hx
                  omega
                · exact hall x (List.mem_cons.mpr (Or.inr hx))

/-- C1: after the aggregation pass over all rows of all input files (in the
given, sorted, order), the stored prompt for a filename is a caption of
maximum character length among the captions seen for that filename (rows
whose image field is malformed are skipped whole, caption included), and on
ties of maximum length it is the first such caption in scan order. -/
theorem aggregator_keeps_first_longest_caption (files : List ParquetFile)
    (fn : String) (h : validPairsFor files fn ≠ []) :
    IsFirstLongest (captionsFor files fn)
      (getEntry (aggregate files) fn).prompt_text := by
  rcases hv : validPairsFor files fn with _ | ⟨⟨c, b⟩, rest⟩
  · exact absurd hv h
  · rw [getEntry_aggregate, hv, List.foldl_cons]
    have h1 : step1 ⟨"", none⟩ (c, b) = ⟨c, some b⟩ := rfl
    rw [h1, foldl_step1_prompt rest b ⟨c, some b⟩ rfl]
    have hc : captionsFor files fn = c :: rest.map Prod.fst := by
      rw [captionsFor, hv]
      rfl
    rw [hc]
    exact pick_first_longest (rest.map Prod.fst) c

theorem aggregator_keeps_first_longest_caption_witness :
    IsFirstLongest (captionsFor wFiles "img.jpg")
      (getEntry (aggregate wFiles) "img.jpg").prompt_text ∧
    (getEntry (aggregate wFiles) "img.jpg").prompt_text = "a longer caption" :=
  ⟨aggregator_keeps_first_longest_caption wFiles "img.jpg" (by decide),
   by decide⟩

/-- C3: the stored image bytes for a filename are those of the first
successfully extracted row for that filename, and once an entry holds image
bytes no later row changes them. -/
theorem aggregator_image_bytes_first_seen (files : List ParquetFile)
    (fn : String) (c : String) (b : Bytes) (rest : List (String × Bytes))
    (h : validPairsFor files fn = (c, b) :: rest) :
    (getEntry (aggregate files) fn).image_bytes = some b ∧
    ∀ (m : AggMap) (r : Row) (ib : Bytes),
      (getEntry m fn).image_bytes = some ib →
      (getEntry (processRow m r) fn).image_bytes = some ib := by
  constructor
  · rw [getEntry_aggregate, h, List.foldl_cons]
    exact foldl_step1_image_bytes rest b ⟨c, some b⟩ rfl
  · intro m r ib hib
    cases hx : extractImageBytes r.image with
    | none =>
        simpa [processRow, hx] using hib
    | some b2 =>
        by_cases hf : r.filename = fn
        · subst hf
          simp only [processRow, hx]
          rw [getEntry_setEntry_same]
          exact step1_image_bytes _ _ _ hib
        · simp only [processRow, hx]
          rw [getEntry_setEntry_other _ _ _ _ hf]
          exact hib

theorem aggregator_image_bytes_first_seen_witness :
    (getEntry (aggregate wFiles) "img.jpg").image_bytes = some [1] :=
  (aggregator_image_bytes_first_seen wFiles "img.jpg" "short" [1]
    [("a longer caption", [2])] (by decide)).1

/-- C9: a row whose image field is neither raw bytes nor a dict exposing a
`bytes` key triggers the warning, leaves the aggregation mapping untouched,
and the pass continues with the remaining rows. -/
theorem malformed_row_skipped (m : AggMap) (r : Row) (rest : List Row)
    (h : extractImageBytes r.image = none) :
    rowWarned r = true ∧ processRow m r = m ∧
    (r :: rest).foldl processRow m = rest.foldl processRow m := by
  have hm : processRow m r = m := by simp [processRow, h]
  refine ⟨?_, hm, ?_⟩
  · simp [rowWarned, h]
  · rw [List.foldl_cons, hm]

theorem malformed_row_skipped_witness :
    rowWarned ⟨"x.jpg", "cap", .other⟩ = true ∧
    processRow [] ⟨"x.jpg", "cap", .other⟩ = [] ∧
    ([⟨"x.jpg", "cap", .other⟩, ⟨"y.jpg", "c2", .raw [1]⟩] : List Row).foldl
        processRow []
      = ([⟨"y.jpg", "c2", .raw [1]⟩] : List Row).foldl processRow [] :=
  malformed_row_skipped [] ⟨"x.jpg", "cap", .other⟩
    [⟨"y.jpg", "c2", .raw [1]⟩] rfl

/-- C10: an aggregated entry whose retained prompt is the empty string is
skipped by the writing pass — no sample is written for it, even when its
image bytes are present, and the written count does not change. -/
theorem empty_prompt_entry_skipped (env : PILEnv) (fn : String) (e : Entry)
    (rest : AggMap) (hp : e.prompt_text = "") :
    sampleOf env fn e = none ∧
    writePass env ((fn, e) :: rest) = writePass env rest ∧
    (writePass env ((fn, e) :: rest)).length = (writePass env rest).length := by
  have hs : sampleOf env fn e = none := by
    cases hb : e.image_bytes with
    | none => simp [sampleOf, hb]
    | some ib => simp [sampleOf, hb, hp]
  have hw : writePass env ((fn, e) :: rest) = writePass env rest := by
    simp [writePass, List.filterMap_cons, hs]
  exact ⟨hs, hw, by rw [hw]⟩

theorem empty_prompt_entry_skipped_witness :
    (sampleOf envAllJpegRGB "a.jpg" ⟨"", some [1]⟩ = none ∧
     writePass envAllJpegRGB [("a.jpg", ⟨"", some [1]⟩)]
       = writePass envAllJpegRGB [] ∧
     (writePass envAllJpegRGB [("a.jpg", ⟨"", some [1]⟩)]).length
       = (writePass envAllJpegRGB []).length) ∧
    envAllJpegRGB.decode [1] = some ⟨some "JPEG", "RGB", 1, 1⟩ :=
  ⟨empty_prompt_entry_skipped envAllJpegRGB "a.jpg" ⟨"", some [1]⟩ [] rfl, rfl⟩

/-- C6: a payload whose decode fails (or raises) is rejected by the
validator; the corresponding aggregated entry is not written, the written
count does not change, and the pass continues with the remaining entries.
An exception during JPEG re-encoding is likewise a rejection. -/
theorem decode_failure_rejected (env : PILEnv) (fn : String) (e : Entry)
    (rest : AggMap) (ib : Bytes) (hb : e.image_bytes = some ib)
    (hd : env.decode ib = none) :
    get_image_bytes_validate_and_dims env ib fn = none ∧
    writePass env ((fn, e) :: rest) = writePass env rest ∧
    (writePass env ((fn, e) :: rest)).length = (writePass env rest).length ∧
    (∀ (b2 : Bytes) (img : DecodedImage), env.decode b2 = some img →
      formatTag img.format ∉ supportedFormats → img.mode ≠ "RGB" →
      env.encodeRGBJpeg img = none →
      get_image_bytes_validate_and_dims env b2 fn = none) := by
  have hv : get_image_bytes_validate_and_dims env ib fn = none := by
    simp [get_image_bytes_validate_and_dims, hd]
  have hs : sampleOf env fn e = none := by
    simp [sampleOf, hb, hv]
  have hw : writePass env ((fn, e) :: rest) = writePass env rest := by
    simp [writePass, List.filterMap_cons, hs]
  refine ⟨hv, hw, by rw [hw], ?_⟩
  intro b2 img hd2 hns hm he
  simp [get_image_bytes_validate_and_dims, hd2, hns, hm, he]

theorem decode_failure_rejected_witness :
    get_image_bytes_validate_and_dims envRejectAll [1] "a.jpg" = none ∧
    writePass envRejectAll
        [("a.jpg", ⟨"cap", some [1]⟩), ("b.jpg", ⟨"cap2", some [2]⟩)]
      = writePass envRejectAll [("b.jpg", ⟨"cap2", some [2]⟩)] := by
  have h := decode_failure_rejected envRejectAll "a.jpg" ⟨"cap", some [1]⟩
    [("b.jpg", ⟨"cap2", some [2]⟩)] [1] rfl rfl
  exact ⟨h.1, h.2.1⟩

/-- C5: a payload that decodes as a PNG in RGBA mode passes through the
validator unchanged — the returned bytes are exactly the input bytes and the
format tag is "png". -/
theorem rgba_png_passthrough (env : PILEnv) (b : Bytes) (fn : String)
    (img : DecodedImage) (hd : env.decode b = some img)
    (hf : formatTag img.format = "png") (hm : img.mode = "RGBA") :
    get_image_bytes_validate_and_dims env b fn
      = some (b, "png", img.width, img.height) := by
  simp [get_image_bytes_validate_and_dims, hd, hf, hm, supportedFormats]

theorem rgba_png_passthrough_witness :
    get_image_bytes_validate_and_dims envPngRGBA [5] "x.png"
      = some ([5], "png", 3, 4) :=
  rgba_png_passthrough envPngRGBA [5] "x.png" ⟨some "PNG", "RGBA", 3, 4⟩
    rfl (by decide) rfl

/-- C2 counterexample: the payload `[0]` decodes as an RGB BMP — a format
outside the supported set — yet the validator returns the original bytes
`[0]` untouched (re-encoding would have produced `[9, 9]`), so the claim
that such payloads are always re-encoded is false. -/
theorem fallback_not_reencoded_cex :
    envBmpRGB.decode [0] = some ⟨some "BMP", "RGB", 4, 5⟩ ∧
    formatTag (some "BMP") ∉ supportedFormats ∧
    envBmpRGB.encodeRGBJpeg ⟨some "BMP", "RGB", 4, 5⟩ = some [9, 9] ∧
    get_image_bytes_validate_and_dims envBmpRGB [0] "img.bmp"
      = some ([0], "jpeg", 4, 5) :=
  ⟨rfl, by decide, rfl, by decide⟩

/-- C2 amended: when the detected format is outside {jpeg, png, webp} the
format tag falls back to "jpeg"; the bytes are re-encoded only when the
decoded mode is not RGB — an already-RGB payload passes through unchanged. -/
theorem fallback_format_jpeg (env : PILEnv) (b : Bytes) (fn : String)
    (img : DecodedImage) (hd : env.decode b = some img)
    (hns : formatTag img.format ∉ supportedFormats) :
    (img.mode = "RGB" →
      get_image_bytes_validate_and_dims env b fn
        = some (b, "jpeg", img.width, img.height)) ∧
    (∀ vb, img.mode ≠ "RGB" → env.encodeRGBJpeg img = some vb →
      get_image_bytes_validate_and_dims env b fn
        = some (vb, "jpeg", img.width, img.height)) := by
  constructor
  · intro hm
    simp [get_image_bytes_validate_and_dims, hd, hns, hm]
  · intro vb hm he
    simp [get_image_bytes_validate_and_dims, hd, hns, hm, he]

theorem fallback_format_jpeg_witness :
    get_image_bytes_validate_and_dims envBmpGray [3] "img.bmp"
      = some ([7], "jpeg", 2, 2) :=
  (fallback_format_jpeg envBmpGray [3] "img.bmp" ⟨some "BMP", "L", 2, 2⟩
    rfl (by decide)).2 [7] (by decide) rfl

/-- C8: when the glob for `<input_dir>/<split>-*.parquet` matches no files,
the script reports the error, creates no output directory and writes no
shards; since `runMain` is a total function the run terminates normally. -/
theorem no_matching_files_no_output (env : PILEnv) (split : String) (n : Nat) :
    (runMain env [] split n).errorPrinted = true ∧
    (runMain env [] split n).outputDirCreated = false ∧
    (runMain env [] split n).shards = [] :=
  ⟨rfl, rfl, rfl⟩

theorem sampleOf_inv (env : PILEnv) (fn : String) (e : Entry) (s : Sample)
    (h : sampleOf env fn e = some s) :
    ∃ ib, e.image_bytes = some ib ∧ e.prompt_text ≠ "" ∧
      get_image_bytes_validate_and_dims env ib fn
        = some (s.bytes, s.fmt, s.width, s.height) ∧
      s.key = splitextStem fn ∧ s.prompt = e.prompt_text := by
  cases hb : e.image_bytes with
  | none => simp [sampleOf, hb] at h
  | some ib =>
      by_cases hp : e.prompt_text = ""
      · simp [sampleOf, hb, hp] at h
      · cases hv : get_image_bytes_validate_and_dims env ib fn with
        | none => simp [sampleOf, hb, hp, hv] at h
        | some t =>
            obtain ⟨vb, fmt, w, hgt⟩ := t
            have hs : s = ⟨splitextStem fn, fmt, vb, e.prompt_text, w, hgt⟩ := by
              have := h
              simp [sampleOf, hb, hp, hv] at this
              exact this.symm
            subst hs
            exact ⟨ib, rfl, hp, hv, rfl, rfl⟩

theorem writePass_keys_sublist (env : PILEnv) (m : AggMap) :
    ((writePass env m).map Sample.key).Sublist
      (m.map fun p => splitextStem p.1) := by
  induction m with
  | nil => simp [writePass]
  | cons p rest ih =>
      obtain ⟨fn, e⟩ := p
      rw [writePass, List.filterMap_cons]
      cases hs : sampleOf env fn e with
      | none =>
          exact List.Sublist.cons _ ih
      | some s =>
          rw [List.map_cons, List.map_cons]
          obtain ⟨ib, _, _, _, hkey, _⟩ := sampleOf_inv env fn e s hs
          rw [hkey]
          exact List.Sublist.cons₂ _ ih

/-- C4 counterexample: the run over `collideFiles` writes two samples, for
the filenames "a.jpg" and "a.png", and both carry the key "a" — persisted
keys are not unique. -/
theorem duplicate_sample_keys_cex :
    (writePass envAllJpegRGB (aggregate collideFiles)).map Sample.key
      = ["a", "a"] ∧
    ¬ ((writePass envAllJpegRGB (aggregate collideFiles)).map
        Sample.key).Nodup := by
  constructor <;> decide

/-- C4 amended: every persisted sample carries the key obtained from its
source filename by removing the extension, its (possibly re-encoded) bytes
under the field named by the validator's format tag, and metadata prompt,
width and height from its entry; the keys are pairwise distinct whenever the
extension-stripped filenames of the aggregated mapping are pairwise
distinct, but two filenames differing only in their extension collide. -/
theorem sample_shape_and_keys (env : PILEnv) (m : AggMap) :
    (∀ s ∈ writePass env m, ∃ fn e ib,
        (fn, e) ∈ m ∧ e.image_bytes = some ib ∧ e.prompt_text ≠ "" ∧
        get_image_bytes_validate_and_dims env ib fn
          = some (s.bytes, s.fmt, s.width, s.height) ∧
        s.key = splitextStem fn ∧ s.prompt = e.prompt_text) ∧
    ((m.map fun p => splitextStem p.1).Nodup →
      ((writePass env m).map Sample.key).Nodup) := by
  constructor
  · induction m with
    | nil => simp [writePass]
    | cons p rest ih =>
        obtain ⟨fn, e⟩ := p
        intro s hsmem
        rw [writePass, List.filterMap_cons] at hsmem
        cases hs : sampleOf env fn e with
        | none =>
            rw [hs] at hsmem
            obtain ⟨fn2, e2, ib2, hmem, h2⟩ := ih s hsmem
            exact ⟨fn2, e2, ib2, List.mem_cons.mpr (Or.inr hmem), h2⟩
        | some s2 =>
            rw [hs] at hsmem
            rcases List.mem_cons.mp hsmem with hseq | hsmem2
            · subst hseq
              obtain ⟨ib, h1, h2, h3, h4, h5⟩ := sampleOf_inv env fn e s hs
              exact ⟨fn, e, ib, List.mem_cons.mpr (Or.inl rfl),
                h1, h2, h3, h4, h5⟩
            · obtain ⟨fn2, e2, ib2, hmem, h2⟩ := ih s hsmem2
              exact ⟨fn2, e2, ib2, List.mem_cons.mpr (Or.inr hmem), h2⟩
  · intro hnd
    exact hnd.sublist (writePass_keys_sublist env m)

theorem sample_shape_and_keys_witness :
    (∃ fn e ib,
        (fn, e) ∈ [("a.jpg", (⟨"cap", some [1]⟩ : Entry))] ∧
        e.image_bytes = some ib ∧ e.prompt_text ≠ "" ∧
        get_image_bytes_validate_and_dims envAllJpegRGB ib fn
          = some ((⟨"a", "jpeg", [1], "cap", 1, 1⟩ : Sample).bytes,
              (⟨"a", "jpeg", [1], "cap", 1, 1⟩ : Sample).fmt,
              (⟨"a", "jpeg", [1], "cap", 1, 1⟩ : Sample).width,
              (⟨"a", "jpeg", [1], "cap", 1, 1⟩ : Sample).height) ∧
        (⟨"a", "jpeg", [1], "cap", 1, 1⟩ : Sample).key = splitextStem fn ∧
        (⟨"a", "jpeg", [1], "cap", 1, 1⟩ : Sample).prompt = e.prompt_text) ∧
    ((writePass envAllJpegRGB
        [("a.jpg", ⟨"cap", some [1]⟩)]).map Sample.key).Nodup :=
  ⟨(sample_shape_and_keys envAllJpegRGB
      [("a.jpg", ⟨"cap", some [1]⟩)]).1 ⟨"a", "jpeg", [1], "cap", 1, 1⟩
      (by decide),
   (sample_shape_and_keys envAllJpegRGB
      [("a.jpg", ⟨"cap", some [1]⟩)]).2 (by decide)⟩

theorem toShards_flatten {α : Type} (N : Nat) (hN : 0 < N) (xs : List α) :
    (toShards N xs).flatten = xs := by
  have hN0 : ¬ (N = 0) := by omega
  rw [toShards, dif_neg hN0]
  by_cases hxs : xs.length = 0
  · rw [dif_pos hxs]
    have hnil : xs = [] := List.length_eq_zero.mp hxs
    simp [hnil]
  · rw [dif_neg hxs, List.flatten_cons,
      toShards_flatten N hN (xs.drop N), List.take_append_drop]
termination_by xs.length
decreasing_by
  simp only [List.length_drop]
  omega

theorem toShards_maxcount {α : Type} (N : Nat) (xs : List α) :
    ∀ c ∈ toShards N xs, c.length ≤ N := by
  by_cases hN0 : N = 0
  · rw [toShards, dif_pos hN0]
    simp
  · rw [toShards, dif_neg hN0]
    by_cases hxs : xs.length = 0
    · rw [dif_pos hxs]
      simp
    · rw [dif_neg hxs]
      intro c hc
      rcases List.mem_cons.mp hc with hc | hc
      · subst hc
        rw [List.length_take]
        exact Nat.min_le_left _ _
      · exact toShards_maxcount N (xs.drop N) c hc
termination_by xs.length
decreasing_by
  simp only [List.length_drop]
  omega

theorem toShards_replicate_25000 (s : Sample) :
    toShards 10000 (List.replicate 25000 s)
      = [List.replicate 10000 s, List.replicate 10000 s,
         List.replicate 5000 s] := by
  have h1 : min 10000 25000 = 10000 := by omega
  have h2 : (25000 : Nat) - 10000 = 15000 := by norm_num
  have h3 : min 10000 15000 = 10000 := by omega
  have h4 : (15000 : Nat) - 10000 = 5000 := by norm_num
  have h5 : min 10000 5000 = 5000 := by omega
  have h6 : (5000 : Nat) - 10000 = 0 := by norm_num
  rw [toShards, dif_neg (by omega),
    dif_neg (by rw [List.length_replicate]; omega),
    List.take_replicate, List.drop_replicate, h1, h2]
  rw [toShards, dif_neg (by omega),
    dif_neg (by rw [List.length_replicate]; omega),
    List.take_replicate, List.drop_replicate, h3, h4]
  rw [toShards, dif_neg (by omega),
    dif_neg (by rw [List.length_replicate]; omega),
    List.take_replicate, List.drop_replicate, h5, h6]
  rw [toShards, dif_neg (by omega),
    dif_pos (by rw [List.length_replicate])]

/-- C7: with 25000 validated samples and samples_per_shard = 10000 exactly
three shards are produced, holding 10000, 10000 and 5000 samples, named with
the zero-padded numbers 000000, 000001, 000002; in general every shard holds
at most N samples and concatenating the shards in numbering order gives back
the written samples in arrival order (no sample is split). -/
theorem shard_writer_contract (s : Sample) (N : Nat) (hN : 0 < N)
    (xs : List Sample) :
    ((toShards 10000 (List.replicate 25000 s)).map List.length
        = [10000, 10000, 5000] ∧
      shardNames "coco-train" (toShards 10000 (List.replicate 25000 s))
        = ["coco-train-000000.tar", "coco-train-000001.tar",
           "coco-train-000002.tar"]) ∧
    (∀ c ∈ toShards N xs, c.length ≤ N) ∧
    (toShards N xs).flatten = xs := by
  refine ⟨⟨?_, ?_⟩, toShards_maxcount N xs, toShards_flatten N hN xs⟩
  · rw [toShards_replicate_25000, List.map_cons, List.map_cons,
      List.map_cons, List.map_nil]
    simp only [List.length_replicate]
  · rw [toShards_replicate_25000, shardNames]
    simp only [List.length_cons, List.length_nil]
    decide

theorem shard_writer_contract_witness :
    (toShards 1 [sampleA]).flatten = [sampleA] ∧
    (toShards 10000 (List.replicate 25000 sampleA)).map List.length
      = [10000, 10000, 5000] := by
  have h := shard_writer_contract sampleA 1 (by decide) [sampleA]
  exact ⟨h.2.2, h.1.1⟩

end ConvertCoco
